import Mathlib

/-!
# Verification of the BlackJack-AI game core

Shallow embedding of the repository's game engine:

* `game_core/game.py` — `Card`, `Deck`, `BlackjackGame` (scoring, dealing,
  hit/stand, dealer play, winner determination, player-state query);
* `crew/tools.py` — `GameActionTool._run` (action normalization gateway);
* `main.py` — `SafeGameActionTool._run` (per-player action-count guard).

Python's `random.shuffle` is modelled by an explicit shuffle function
`σ : List Card → List Card` supplied to every operation that may shuffle;
theorems that depend on the content of a reshuffled deck assume `σ`
produces a permutation of its input, and theorems that only need dealing
to succeed assume `σ` applied to the fresh four-deck multiset is nonempty.
Python exceptions (IndexError / KeyError on dict or list indexing) are
modelled by `Option`: a `none` result is an uncaught exception.
`json.loads` followed by the `.get('action')` lookup in `tools.py` is
abstracted by a function `J : String → Option String` returning the
string value of the `action` field when the text parses as a JSON object
carrying one, and `none` otherwise.
-/

namespace BlackjackAI

/-- Card ranks, as enumerated by `Deck.RANKS` in `game.py`. -/
inductive Rank where
  | ace | r2 | r3 | r4 | r5 | r6 | r7 | r8 | r9 | r10
  | jack | queen | king
  deriving DecidableEq, Repr

/-- Card suits, as enumerated by `Deck.SUITS` in `game.py`. -/
inductive Suit where
  | spades | hearts | diamonds | clubs
  deriving DecidableEq, Repr

/-- A playing card: `Card.__init__` stores a rank and a suit. -/
structure Card where
  rank : Rank
  suit : Suit
  deriving DecidableEq, Repr

/-- The rank text used by Python's `Card.rank` strings. -/
def Rank.str : Rank → String
  | .ace => "A"
  | .r2 => "2"
  | .r3 => "3"
  | .r4 => "4"
  | .r5 => "5"
  | .r6 => "6"
  | .r7 => "7"
  | .r8 => "8"
  | .r9 => "9"
  | .r10 => "10"
  | .jack => "J"
  | .queen => "Q"
  | .king => "K"

/-- Suit symbols from `Card.__str__`'s `suit_symbols` table. -/
def Suit.symbol : Suit → String
  | .spades => "♠"
  | .hearts => "♥"
  | .diamonds => "♦"
  | .clubs => "♣"

/-- `Card.__str__`: rank text followed by the suit symbol. -/
def Card.str (c : Card) : String :=
  c.rank.str ++ c.suit.symbol

/-- `Card.get_value`: 10 for J/Q/K, 11 for an Ace, the numeric rank
otherwise. -/
def Card.get_value (c : Card) : Nat :=
  match c.rank with
  | .jack | .queen | .king => 10
  | .ace => 11
  | .r2 => 2
  | .r3 => 3
  | .r4 => 4
  | .r5 => 5
  | .r6 => 6
  | .r7 => 7
  | .r8 => 8
  | .r9 => 9
  | .r10 => 10

/-- `Deck.RANKS` in source order. -/
def RANKS : List Rank :=
  [.ace, .r2, .r3, .r4, .r5, .r6, .r7, .r8, .r9, .r10, .jack, .queen, .king]

/-- `Deck.SUITS` in source order. -/
def SUITS : List Suit :=
  [.spades, .hearts, .diamonds, .clubs]

/-- The card list built by `Deck.__init__(num_decks)` before shuffling:
for each of `num_decks` decks, for each rank, for each suit, append the
card. -/
def freshDeckCards (num_decks : Nat) : List Card :=
  (List.replicate num_decks (RANKS.flatMap fun r => SUITS.map fun s => Card.mk r s)).flatten

/-- `Deck.__init__(num_decks)` followed by the constructor's shuffle:
the deck's card list is a shuffle of the fresh multiset. -/
def deckInit (σ : List Card → List Card) (num_decks : Nat) : List Card :=
  σ (freshDeckCards num_decks)

/-- `Deck.deal_card`: if the card list is empty, re-run `self.__init__()`
— which uses the default `num_decks = 4` — and then pop (remove and
return the last card).  A `none` result is the `IndexError` Python's
`list.pop` would raise on an empty list, which can only happen when the
shuffle returns an empty list. -/
def dealCard (σ : List Card → List Card) (cards : List Card) :
    Option (Card × List Card) :=
  let cs := if cards = [] then deckInit σ 4 else cards
  match cs.getLast? with
  | none => none
  | some c => some (c, cs.dropLast)

/-- Iterated `deal_card`, discarding the drawn cards: the deck contents
after a given number of draws. -/
def drawN (σ : List Card → List Card) : Nat → List Card → Option (List Card)
  | 0, cards => some cards
  | k + 1, cards => (dealCard σ cards).bind fun p => drawN σ k p.2

/-- The raw point sum of a hand:
`sum(card.get_value() for card in hand)` in `score_hand`. -/
def rawSum (hand : List Card) : Nat :=
  (hand.map Card.get_value).sum

/-- The Ace count of a hand:
`sum(1 for card in hand if card.rank == 'A')` in `score_hand`. -/
def numAces (hand : List Card) : Nat :=
  (hand.filter fun c => c.rank = Rank.ace).length

/-- The `while score > 21 and num_aces > 0` loop of `score_hand`,
recursing on the remaining Ace count. -/
def adjustAces (score : Nat) : Nat → Nat
  | 0 => score
  | aces + 1 => if score > 21 then adjustAces (score - 10) aces else score

/-- `BlackjackGame.score_hand`: raw sum, then soften Aces one at a time
while the total exceeds 21. -/
def score_hand (hand : List Card) : Nat :=
  adjustAces (rawSum hand) (numAces hand)

/-! ## The hand mapping

Python's insertion-ordered `dict` from participant name to hand is
modelled by an association list: lookup finds the first matching key,
assignment updates the first matching key in place or appends a new key
at the end. -/

/-- `self.hands[name]` / `self.hands.get(name)`: first matching key. -/
def lookupHand : List (String × List Card) → String → Option (List Card)
  | [], _ => none
  | (k, v) :: rest, n => if k = n then some v else lookupHand rest n

/-- `self.hands[name] = hand`: update in place, else append at the end
(Python dict assignment keeps the key's original insertion position). -/
def setHand : List (String × List Card) → String → List Card → List (String × List Card)
  | [], n, h => [(n, h)]
  | (k, v) :: rest, n, h =>
    if k = n then (n, h) :: rest else (k, v) :: setHand rest n h

/-- The reserved dealer name, `self.dealer_name = 'Dealer'`. -/
def dealerName : String := "Dealer"

/-- `{name: [] for name in player_names}` followed by
`self.hands['Dealer'] = []`. -/
def initHands (names : List String) : List (String × List Card) :=
  setHand (names.foldl (fun hs n => setHand hs n []) []) dealerName []

/-- The state owned by a `BlackjackGame` instance. -/
structure GameState where
  deck : List Card
  hands : List (String × List Card)
  player_names : List String
  active_players : Finset String
  game_status : String
  deriving DecidableEq

/-- `BlackjackGame.__init__(player_names)`: a fresh shuffled four-deck
shoe, empty hands for every player and the dealer, every player active,
status `READY`. -/
def gameInit (σ : List Card → List Card) (names : List String) : GameState :=
  { deck := deckInit σ 4
    hands := initHands names
    player_names := names
    active_players := names.toFinset
    game_status := "READY" }

/-! ## Result messages

The engine signals outcomes through the exact strings built by the
Python f-strings; the orchestration loop in `main.py` detects turn
completion by looking for the `**TASK COMPLETE.**` marker in the result
text. -/

/-- Python's `repr` of a list of strings, as produced when a list of
card strings is interpolated into an f-string. -/
def pyStrList (ss : List String) : String :=
  "[" ++ String.intercalate ", " (ss.map fun s => "\x27" ++ s ++ "\x27") ++ "]"

/-- The card strings of a hand, `[str(c) for c in hand]`. -/
def handStrs (hand : List Card) : List String :=
  hand.map Card.str

/-- The completion marker shared by every turn-ending message. -/
def taskCompleteMarker : String := "**TASK COMPLETE.**"

/-- `hit` on an inactive participant. -/
def alreadyFinishedMsg (name : String) : String :=
  name ++ " is already finished (stood or busted). No action taken."

/-- `hit` result when the new score exceeds 21. -/
def bustMsg (name : String) (c : Card) (s : Nat) : String :=
  name ++ " draws " ++ c.str ++ ". Score is " ++ toString s ++
    ". BUST! Player is out. " ++ taskCompleteMarker

/-- `hit` result when the new score is exactly 21. -/
def autoStandMsg (name : String) (c : Card) : String :=
  name ++ " draws " ++ c.str ++ ". Score is 21. STAND automatically. " ++
    taskCompleteMarker

/-- `hit` result when the participant must decide again. -/
def continueMsg (name : String) (c : Card) (s : Nat) : String :=
  name ++ " draws " ++ c.str ++ ". New score is " ++ toString s ++
    ". You must call the tool again to decide: HIT or STAND."

/-- `stand` on an active participant. -/
def standMsg (name : String) (s : Nat) : String :=
  name ++ " STANDS with a final score of " ++ toString s ++
    ". Turn over. " ++ taskCompleteMarker

/-- `stand` on an inactive participant. -/
def standAlreadyMsg (name : String) : String :=
  name ++ " has already finished their turn. No action taken."

/-! ## Round operations -/

/-- `BlackjackGame.hit(player_name)`.  `none` is the `KeyError` raised
by `self.hands[player_name]` when an active name has no hand, or the
impossible empty pop inside `deal_card`. -/
def hit (σ : List Card → List Card) (g : GameState) (name : String) :
    Option (String × GameState) :=
  if name ∈ g.active_players then
    match dealCard σ g.deck with
    | none => none
    | some (c, deck2) =>
      match lookupHand g.hands name with
      | none => none
      | some h =>
        let hand2 := h ++ [c]
        let s := score_hand hand2
        let hands2 := setHand g.hands name hand2
        if s > 21 then
          some (bustMsg name c s,
            { g with deck := deck2, hands := hands2,
                     active_players := g.active_players.erase name })
        else if s = 21 then
          some (autoStandMsg name c,
            { g with deck := deck2, hands := hands2,
                     active_players := g.active_players.erase name })
        else
          some (continueMsg name c s,
            { g with deck := deck2, hands := hands2 })
  else some (alreadyFinishedMsg name, g)

/-- `BlackjackGame.stand(player_name)`.  `none` is the `KeyError` from
`self.hands[player_name]` on an active name with no hand. -/
def stand (g : GameState) (name : String) : Option (String × GameState) :=
  if name ∈ g.active_players then
    match lookupHand g.hands name with
    | none => none
    | some h =>
      some (standMsg name (score_hand h),
        { g with active_players := g.active_players.erase name })
  else some (standAlreadyMsg name, g)

/-- One iteration of the dealing loop in `deal_initial_cards`:
`self.hands[name].append(self.deck.deal_card())`. -/
def dealOneTo (σ : List Card → List Card) (g : GameState) (name : String) :
    Option GameState :=
  match dealCard σ g.deck with
  | none => none
  | some (c, deck2) =>
    match lookupHand g.hands name with
    | none => none
    | some h =>
      some { g with deck := deck2, hands := setHand g.hands name (h ++ [c]) }

/-- One pass of `for name in self.player_names + [self.dealer_name]`. -/
def dealToAll (σ : List Card → List Card) :
    GameState → List String → Option GameState
  | g, [] => some g
  | g, n :: rest => (dealOneTo σ g n).bind fun g2 => dealToAll σ g2 rest

/-- `BlackjackGame.deal_initial_cards()`: reset hands and the active
set, deal two passes of one card each to every player and the dealer,
set status to `IN_PROGRESS`. -/
def deal_initial_cards (σ : List Card → List Card) (g : GameState) :
    Option GameState :=
  let g0 := { g with hands := initHands g.player_names,
                     active_players := g.player_names.toFinset }
  (dealToAll σ g0 (g.player_names ++ [dealerName])).bind fun g1 =>
    (dealToAll σ g1 (g.player_names ++ [dealerName])).map fun g2 =>
      { g2 with game_status := "IN_PROGRESS" }

/-! ## Player-state query -/

/-- `str(self.hands.get(self.dealer_name, ['None'])[0])`: the dealer's
face-up card; `none` is the `IndexError` when the dealer's hand exists
but is empty.  A missing dealer key would fall back to the literal
`'None'`. -/
def dealerUpCard (g : GameState) : Option String :=
  match lookupHand g.hands dealerName with
  | none => some "None"
  | some [] => none
  | some (c :: _) => some c.str

/-- The score reported by `get_player_state`: a name with no registered
hand is treated as the empty hand. -/
def playerStateScore (g : GameState) (name : String) : Nat :=
  score_hand ((lookupHand g.hands name).getD [])

/-- The `state_summary` f-string of `get_player_state`. -/
def stateSummary (name : String) (hand : List Card) (score : Nat)
    (up : String) (status : String) : String :=
  "Your Name: " ++ name ++ "\n" ++
  "Your Current Hand: " ++ pyStrList (handStrs hand) ++ "\n" ++
  "Your Current Score: " ++ toString score ++ "\n" ++
  "Dealer\x27s Up Card: " ++ up ++ "\n" ++
  "Current Status: " ++ status

/-- `BlackjackGame.get_player_state(player_name)`: read-only summary;
`none` is the `IndexError` on an empty dealer hand. -/
def get_player_state (g : GameState) (name : String) : Option String :=
  let hand := (lookupHand g.hands name).getD []
  let score := score_hand hand
  match dealerUpCard g with
  | none => none
  | some up =>
    let status :=
      if score > 21 then "BUSTED"
      else if name ∉ g.active_players then "STAND (Turn Over)"
      else "MUST CHOOSE HIT or STAND"
    some (stateSummary name hand score up status)

/-! ## Dealer play

The `while dealer_score < 17` loop terminates because every drawn card
raises the hand's minimum (all-Aces-soft) total by at least one; the
lemmas below justify the recursion measure. -/

theorem rawSum_append (h : List Card) (c : Card) :
    rawSum (h ++ [c]) = rawSum h + c.get_value := by
  simp [rawSum]

theorem numAces_append (h : List Card) (c : Card) :
    numAces (h ++ [c]) = numAces h + (if c.rank = Rank.ace then 1 else 0) := by
  by_cases hc : c.rank = Rank.ace <;>
    simp [numAces, List.filter_append, hc]

theorem Card.two_le_value (c : Card) : 2 ≤ c.get_value := by
  rcases c with ⟨r, s⟩
  cases r <;> simp [Card.get_value]

theorem Card.ace_value (c : Card) (hc : c.rank = Rank.ace) :
    c.get_value = 11 := by
  rcases c with ⟨r, s⟩
  cases r <;> simp_all [Card.get_value]

theorem aces_le_rawSum : ∀ h : List Card, 11 * numAces h ≤ rawSum h
  | [] => by simp [numAces, rawSum]
  | c :: t => by
    have ih := aces_le_rawSum t
    have hv := Card.two_le_value c
    by_cases hc : c.rank = Rank.ace
    · have h11 := Card.ace_value c hc
      simp only [numAces, rawSum, List.filter_cons, List.map_cons,
        List.sum_cons] at *
      rw [if_pos (by simpa using hc)]
      simp only [List.length_cons]
      omega
    · simp only [numAces, rawSum, List.filter_cons, List.map_cons,
        List.sum_cons] at *
      rw [if_neg (by simpa using hc)]
      omega

/-- The minimum total of a hand: every Ace counted as 1. -/
def hardTotal (hand : List Card) : Nat :=
  rawSum hand - 10 * numAces hand

theorem sub_le_adjustAces (aces : Nat) :
    ∀ score : Nat, score - 10 * aces ≤ adjustAces score aces := by
  induction aces with
  | zero => intro s; simp [adjustAces]
  | succ a ih =>
    intro s
    simp only [adjustAces]
    split
    · have := ih (s - 10)
      omega
    · omega

theorem adjustAces_le (aces : Nat) :
    ∀ score : Nat, adjustAces score aces ≤ score := by
  induction aces with
  | zero => intro s; simp [adjustAces]
  | succ a ih =>
    intro s
    simp only [adjustAces]
    split
    · have := ih (s - 10)
      omega
    · omega

theorem hardTotal_le_score (hand : List Card) :
    hardTotal hand ≤ score_hand hand :=
  sub_le_adjustAces (numAces hand) (rawSum hand)

theorem score_le_rawSum (hand : List Card) :
    score_hand hand ≤ rawSum hand :=
  adjustAces_le (numAces hand) (rawSum hand)

theorem hardTotal_append (h : List Card) (c : Card) :
    hardTotal h + 1 ≤ hardTotal (h ++ [c]) := by
  have h1 := aces_le_rawSum h
  have h2 := Card.two_le_value c
  by_cases hc : c.rank = Rank.ace
  · have hv := Card.ace_value c hc
    simp only [hardTotal, rawSum_append, numAces_append, hc, if_pos]
    omega
  · simp only [hardTotal, rawSum_append, numAces_append, if_neg hc]
    omega

/-- Log line for the dealer's initial reveal. -/
def revealMsg (hand : List Card) (s : Nat) : String :=
  "Dealer reveals full hand: " ++ pyStrList (handStrs hand) ++
    ", Initial Score: " ++ toString s

/-- Log line for one dealer draw. -/
def dealerHitMsg (c : Card) (s : Nat) : String :=
  "Dealer hits, draws " ++ c.str ++ ". New score: " ++ toString s

/-- Terminal log line when the dealer busts. -/
def dealerBustMsg (s : Nat) : String :=
  "Dealer BUSTS with a score of " ++ toString s ++ "."

/-- Terminal log line when the dealer stands. -/
def dealerStandMsg (s : Nat) : String :=
  "Dealer STANDS with a score of " ++ toString s ++ "."

/-- `"\n".join(log)`. -/
def joinNL (ls : List String) : String :=
  String.intercalate "\n" ls

/-- The `while dealer_score < 17` loop of `dealer_play`: draw, append to
the dealer's hand, log the draw, repeat. -/
def dealerLoop (σ : List Card → List Card) (deck hand : List Card)
    (log : List String) : Option (List Card × List Card × List String) :=
  if hlt : score_hand hand < 17 then
    match dealCard σ deck with
    | none => none
    | some (c, deck2) =>
      dealerLoop σ deck2 (hand ++ [c])
        (log ++ [dealerHitMsg c (score_hand (hand ++ [c]))])
  else some (deck, hand, log)
termination_by 17 - hardTotal hand
decreasing_by
  have h1 : hardTotal hand ≤ score_hand hand := hardTotal_le_score hand
  have h2 := hardTotal_append hand c
  omega

/-- `BlackjackGame.dealer_play()`: reveal, hit to 17, log the outcome,
set status to `FINISHED`.  `none` is the `KeyError` when the dealer has
no hand, or an empty pop inside `deal_card`. -/
def dealer_play (σ : List Card → List Card) (g : GameState) :
    Option (String × GameState) :=
  match lookupHand g.hands dealerName with
  | none => none
  | some hand0 =>
    match dealerLoop σ g.deck hand0 [revealMsg hand0 (score_hand hand0)] with
    | none => none
    | some (deck2, hand2, log2) =>
      let s := score_hand hand2
      let logF := log2 ++ [if s > 21 then dealerBustMsg s else dealerStandMsg s]
      some (joinNL logF,
        { g with deck := deck2, hands := setHand g.hands dealerName hand2,
                 game_status := "FINISHED" })

/-! ## Winner determination -/

/-- The outcome branch chain of `determine_winner`, for one player's
score against the dealer's. -/
def outcomeFor (player_score dealer_score : Nat) : String :=
  if player_score > 21 then "BUSTED - Dealer WINS."
  else if dealer_score > 21 then "Dealer BUSTED - Player WINS."
  else if player_score > dealer_score then "Player WINS."
  else if player_score < dealer_score then "Dealer WINS."
  else "PUSH (Tie)."

/-- The `--- GAME RESULTS ---` header line. -/
def resultsHeader (dh : List Card) (ds : Nat) : String :=
  "\n--- GAME RESULTS ---\nDealer Final Hand: " ++ pyStrList (handStrs dh) ++
    ", Score: " ++ toString ds ++ " (" ++
    (if ds > 21 then "BUSTED" else "STAND") ++ ")"

/-- One per-player result line of `determine_winner`. -/
def resultLine (name : String) (hand : List Card) (ds : Nat) : String :=
  name ++ " | Score: " ++ toString (score_hand hand) ++ " | Hand: " ++
    pyStrList (handStrs hand) ++ " | Outcome: " ++
    outcomeFor (score_hand hand) ds

/-- `BlackjackGame.determine_winner()`: per-player outcomes against the
dealer, iterating the hand mapping in insertion order and skipping the
dealer.  Performs no mutation: the state component is returned
unchanged.  `none` is the `KeyError` when the dealer has no hand. -/
def determine_winner (g : GameState) : Option (String × GameState) :=
  match lookupHand g.hands dealerName with
  | none => none
  | some dh =>
    let ds := score_hand dh
    let lines := g.hands.filterMap fun p =>
      if p.1 = dealerName then none else some (resultLine p.1 p.2 ds)
    some (joinNL (resultsHeader dh ds :: lines), g)

/-! ## Action Gateway (`crew/tools.py`, `GameActionTool._run`) -/

/-- The invalid-action result text. -/
def invalidActionMsg : String :=
  "Invalid action. You must choose \x27Hit\x27 or \x27Stand\x27."

/-- Python's `str.strip()`: drop whitespace from both ends. -/
def pyStrip (s : String) : String :=
  String.mk ((s.data.dropWhile Char.isWhitespace).reverse.dropWhile
    Char.isWhitespace).reverse

/-- Python's `str.startswith(p)`. -/
def pyStartsWith (s p : String) : Bool :=
  p.data.isPrefixOf s.data

/-- Python's `str.endswith(p)`. -/
def pyEndsWith (s p : String) : Bool :=
  p.data.isSuffixOf s.data

/-- Python's `str.lower()`. -/
def pyLower (s : String) : String :=
  String.mk (s.data.map Char.toLower)

/-- The normalization of `_run`: trim; when the trimmed text is brace
delimited, try the JSON extraction `J` and on success use the extracted
field trimmed; finally lower-case. -/
def normalizeText (J : String → Option String) (action : String) : String :=
  let text := pyStrip action
  let text2 :=
    if pyStartsWith text "\x7b" && pyEndsWith text "\x7d" then
      match J text with
      | some v => pyStrip v
      | none => text
    else text
  pyLower text2

/-- `GameActionTool._run(player_name, action)`: normalize, dispatch to
`hit`/`stand`, otherwise report an invalid action without touching the
game. -/
def gameActionRun (J : String → Option String) (σ : List Card → List Card)
    (g : GameState) (name action : String) : Option (String × GameState) :=
  let norm := normalizeText J action
  if norm = "hit" ∨ norm = "hit()" then hit σ g name
  else if norm = "stand" ∨ norm = "stand()" then stand g name
  else some (invalidActionMsg, g)

/-! ## Turn Guard (`main.py`, `SafeGameActionTool._run`) -/

/-- The guard's `defaultdict(int)` counter plus the configured cap. -/
structure GuardState where
  counts : List (String × Nat)
  max_actions : Nat
  deriving DecidableEq

/-- Counter lookup with the `defaultdict` zero default. -/
def getCount : List (String × Nat) → String → Nat
  | [], _ => 0
  | (k, v) :: rest, n => if k = n then v else getCount rest n

/-- `self._counts[player_name] += 1` (a fresh key is appended with
count 1, as `defaultdict` inserts it on first access). -/
def bumpCount : List (String × Nat) → String → List (String × Nat)
  | [], n => [(n, 1)]
  | (k, v) :: rest, n =>
    if k = n then (k, v + 1) :: rest else (k, v) :: bumpCount rest n

/-- The constructor default `max_actions_per_player: int = 10`. -/
def defaultMaxActions : Nat := 10

/-- The forced-stand result text. -/
def forceMsg (maxA : Nat) : String :=
  "FORCE: max actions exceeded (" ++ toString maxA ++
    "). Forcing STAND. " ++ taskCompleteMarker

/-- The guard's forced stand: `self.game.stand(player_name)`, falling
back to `self.game.active_players.discard(player_name)` when `stand`
raises. -/
def forcedStand (g : GameState) (name : String) : GameState :=
  match stand g name with
  | some (_, g3) => g3
  | none => { g with active_players := g.active_players.erase name }

/-- `SafeGameActionTool._run`: increment the caller's counter, then
either short-circuit with a forced stand (falling back to removing the
name from the active set when `stand` raises) or delegate to the
gateway. -/
def safeGameActionRun (J : String → Option String) (σ : List Card → List Card)
    (gs : GuardState) (g : GameState) (name action : String) :
    Option (String × GuardState × GameState) :=
  let counts2 := bumpCount gs.counts name
  let gs2 : GuardState := { gs with counts := counts2 }
  if getCount counts2 name > gs.max_actions then
    some (forceMsg gs.max_actions, gs2, forcedStand g name)
  else
    (gameActionRun J σ g name action).map fun r => (r.1, gs2, r.2)

/-! ## Reachable states

States reachable from construction through the round operations.  The
second component tracks, per participant, whether an accepted `hit` or
`stand` has removed them from the active set since the round's last
deal — i.e. whether they have stood, busted, or reached 21 through an
action. -/

/-- After a step from `gOld` to `gNew`, a name counts as finished when
it already did, or when that step removed it from the active set. -/
def finishUpdate (gOld gNew : GameState) (f : String → Bool) :
    String → Bool :=
  fun n => f n ||
    (decide (n ∈ gOld.active_players) && decide (n ∉ gNew.active_players))

/-- Reachability of a game state paired with its finished-participant
tracker, under a fixed shuffle function `σ`. -/
inductive ReachT (σ : List Card → List Card) :
    GameState → (String → Bool) → Prop where
  | init (names : List String) :
      ReachT σ (gameInit σ names) (fun _ => false)
  | deal (g : GameState) (f : String → Bool) (g2 : GameState) :
      ReachT σ g f → deal_initial_cards σ g = some g2 →
      ReachT σ g2 (fun _ => false)
  | hitStep (g : GameState) (f : String → Bool) (name msg : String)
      (g2 : GameState) :
      ReachT σ g f → hit σ g name = some (msg, g2) →
      ReachT σ g2 (finishUpdate g g2 f)
  | standStep (g : GameState) (f : String → Bool) (name msg : String)
      (g2 : GameState) :
      ReachT σ g f → stand g name = some (msg, g2) →
      ReachT σ g2 (finishUpdate g g2 f)
  | dealerStep (g : GameState) (f : String → Bool) (log : String)
      (g2 : GameState) :
      ReachT σ g f → dealer_play σ g = some (log, g2) →
      ReachT σ g2 f

/-! ## Basic lemmas about the hand mapping -/

theorem lookupHand_setHand (hs : List (String × List Card)) (n : String)
    (h : List Card) (m : String) :
    lookupHand (setHand hs n h) m = if n = m then some h else lookupHand hs m := by
  induction hs with
  | nil =>
    by_cases hm : n = m <;> simp [setHand, lookupHand, hm]
  | cons p rest ih =>
    rcases p with ⟨k, v⟩
    by_cases hk : k = n
    · subst hk
      by_cases hm : k = m <;> simp [setHand, lookupHand, hm]
    · by_cases hm : k = m
      · subst hm
        have hnm : ¬n = k := fun e => hk e.symm
        simp [setHand, lookupHand, hk, hnm]
      · simp [setHand, lookupHand, hk, hm, ih]

theorem lookupHand_isSome_setHand (hs : List (String × List Card))
    (n : String) (h : List Card) (m : String)
    (hm : (lookupHand hs m).isSome) :
    (lookupHand (setHand hs n h) m).isSome := by
  rw [lookupHand_setHand]
  by_cases e : n = m <;> simp [e, hm]

/-! ## Claim C2 — hand scoring -/

theorem adjustAces_spec (aces : Nat) :
    ∀ score : Nat, ∃ k ≤ aces,
      adjustAces score aces = score - 10 * k ∧
      (∀ j < k, 21 < score - 10 * j) ∧
      (adjustAces score aces ≤ 21 ∨ k = aces) := by
  induction aces with
  | zero =>
    intro s
    exact ⟨0, Nat.le_refl 0, by simp [adjustAces], by omega, Or.inr rfl⟩
  | succ a ih =>
    intro s
    by_cases hs : s > 21
    · obtain ⟨k, hk, heq, hj, hor⟩ := ih (s - 10)
      refine ⟨k + 1, by omega, ?_, ?_, ?_⟩
      · simp only [adjustAces, if_pos hs]
        omega
      · intro j hjk
        cases j with
        | zero => simpa using hs
        | succ i =>
          have := hj i (by omega)
          omega
      · rcases hor with hle | hka
        · exact Or.inl (by simp only [adjustAces, if_pos hs]; omega)
        · exact Or.inr (by omega)
    · refine ⟨0, Nat.zero_le _, ?_, by omega, Or.inl ?_⟩
      · simp [adjustAces, hs]
      · simp only [adjustAces, if_neg hs]
        omega

/-- C2: `score_hand` sums the card point values (10 for J/Q/K, 11 for an
Ace, the numeric rank otherwise) and then subtracts 10 per softened Ace,
softening one Ace at a time and only while the running total exceeds 21
and unsoftened Aces remain; the empty hand scores 0 and the result never
exceeds the unadjusted sum.  The function is a pure Lean function, as
the Python original has no side effects. -/
theorem score_hand_correct (hand : List Card) :
    score_hand [] = 0 ∧
    (∀ c : Card, c.rank = Rank.ace → c.get_value = 11) ∧
    (∀ c : Card, c.rank = Rank.jack ∨ c.rank = Rank.queen ∨
      c.rank = Rank.king → c.get_value = 10) ∧
    score_hand hand ≤ rawSum hand ∧
    ∃ k ≤ numAces hand,
      score_hand hand = rawSum hand - 10 * k ∧
      (∀ j < k, 21 < rawSum hand - 10 * j) ∧
      (score_hand hand ≤ 21 ∨ k = numAces hand) := by
  refine ⟨by simp [score_hand, rawSum, numAces, adjustAces], ?_, ?_,
    score_le_rawSum hand, adjustAces_spec (numAces hand) (rawSum hand)⟩
  · intro c hc
    exact Card.ace_value c hc
  · intro c hc
    rcases c with ⟨r, s⟩
    rcases hc with h | h | h <;> simp_all [Card.get_value]

/-! ## Claim C8 — drawing and reshuffling

`Deck.deal_card` refills an empty shoe by re-running `__init__()` with
no argument, so the refill always contains the **default** four decks
(208 cards), whatever deck count the shoe was originally built with. -/

theorem freshDeckCards_four_length : (freshDeckCards 4).length = 208 := by
  rfl

set_option maxRecDepth 40000 in
/-- C8c (counterexample): a shoe built from one deck holds 52 cards and
is empty after 52 draws; the 53rd draw triggers the refill and leaves
207 cards — a fresh multiset of the default four decks — whereas the
claim's "refilled with a full fresh multiset of N decks" would leave 51
for N = 1. -/
theorem deal_refill_counterexample :
    (deckInit id 1).length = 52 ∧
    drawN id 52 (deckInit id 1) = some [] ∧
    (drawN id 53 (deckInit id 1)).map List.length = some 207 ∧
    (207 : Nat) ≠ 51 := by
  refine ⟨by rfl, by decide, by decide, by decide⟩

/-- C8 (amended): every draw removes and returns exactly one card and
never fails; a draw from an empty shoe first refills it with a fresh
shuffled multiset of the default four decks — regardless of the deck
count the shoe was built from — and then completes from the refilled
shoe, leaving 207 cards. -/
theorem dealCard_amended (σ : List Card → List Card)
    (hσ : (deckInit σ 4).Perm (freshDeckCards 4)) (cards : List Card) :
    ∃ c rest, dealCard σ cards = some (c, rest) ∧
      (cards ≠ [] → cards = rest ++ [c] ∧ rest.length + 1 = cards.length) ∧
      (cards = [] → (c :: rest).Perm (freshDeckCards 4) ∧ rest.length = 207) := by
  by_cases hc : cards = []
  · subst hc
    have hlen : (deckInit σ 4).length = 208 := by
      rw [hσ.length_eq, freshDeckCards_four_length]
    have hne : deckInit σ 4 ≠ [] := by
      intro h
      rw [h] at hlen
      simp at hlen
    have hl : (deckInit σ 4).getLast? = some ((deckInit σ 4).getLast hne) :=
      List.getLast?_eq_getLast_of_ne_nil hne
    refine ⟨(deckInit σ 4).getLast hne, (deckInit σ 4).dropLast, ?_, ?_, ?_⟩
    · have hstep : dealCard σ [] =
          (match (deckInit σ 4).getLast? with
           | none => none
           | some c => some (c, (deckInit σ 4).dropLast)) := by
        simp [dealCard]
      rw [hstep, hl]
    · intro h
      exact absurd rfl h
    · intro _
      have hsplit : (deckInit σ 4).dropLast ++ [(deckInit σ 4).getLast hne] =
          deckInit σ 4 := List.dropLast_concat_getLast hne
      constructor
      · have h1 : ((deckInit σ 4).getLast hne :: (deckInit σ 4).dropLast).Perm
            ((deckInit σ 4).dropLast ++ [(deckInit σ 4).getLast hne]) :=
          (List.perm_append_singleton _ _).symm
        rw [hsplit] at h1
        exact h1.trans hσ
      · have hdl := List.length_dropLast (deckInit σ 4)
        omega
  · have hl : cards.getLast? = some (cards.getLast hc) :=
      List.getLast?_eq_getLast_of_ne_nil hc
    refine ⟨cards.getLast hc, cards.dropLast, ?_, ?_, ?_⟩
    · have hstep : dealCard σ cards =
          (match cards.getLast? with
           | none => none
           | some c => some (c, cards.dropLast)) := by
        simp [dealCard, hc]
      rw [hstep, hl]
    · intro _
      refine ⟨(List.dropLast_concat_getLast hc).symm, ?_⟩
      have hdl := List.length_dropLast cards
      have hnz : cards.length ≠ 0 := by
        intro h
        exact hc (List.eq_nil_of_length_eq_zero h)
      omega
    · intro h
      exact absurd h hc

/-- Witness for C8: the amended statement applied to the empty shoe with
the identity shuffle. -/
theorem dealCard_amended_witness :
    ∃ c rest, dealCard id ([] : List Card) = some (c, rest) ∧
      (([] : List Card) ≠ [] →
        ([] : List Card) = rest ++ [c] ∧ rest.length + 1 = ([] : List Card).length) ∧
      (([] : List Card) = [] →
        (c :: rest).Perm (freshDeckCards 4) ∧ rest.length = 207) :=
  dealCard_amended id (List.Perm.refl _) []

/-! ## Claim C9 — actions on an inactive participant -/

/-- C9: once a participant is absent from the active set, both `hit` and
`stand` return their already-finished message, raise nothing (the result
is `some`), and return the state fully unchanged — hands, shoe, active
set and status are exactly as before, so the participant stays absent. -/
theorem inactive_hit_stand_noop (σ : List Card → List Card)
    (g : GameState) (name : String) (h : name ∉ g.active_players) :
    hit σ g name = some (alreadyFinishedMsg name, g) ∧
    stand g name = some (standAlreadyMsg name, g) ∧
    name ∉ g.active_players := by
  refine ⟨?_, ?_, h⟩ <;> simp [hit, stand, h]

/-- Witness for C9: a freshly constructed game with no players, on which
any name is inactive. -/
theorem inactive_hit_stand_noop_witness :
    hit id (gameInit id []) "P1" =
      some (alreadyFinishedMsg "P1", gameInit id []) ∧
    stand (gameInit id []) "P1" =
      some (standAlreadyMsg "P1", gameInit id []) ∧
    "P1" ∉ (gameInit id []).active_players :=
  inactive_hit_stand_noop id (gameInit id []) "P1" (by decide)

/-! ## The completion marker

`main.py` stops prompting a player exactly when the result text carries
the `**TASK COMPLETE.**` marker, so "turn complete" signals are the
strings having the marker as a suffix. -/

/-- The result text ends with the `**TASK COMPLETE.**` marker. -/
def markerSuffix (s : String) : Prop :=
  taskCompleteMarker.data <:+ s.data

theorem markerSuffix_append (a : String) :
    markerSuffix (a ++ taskCompleteMarker) :=
  ⟨a.data, (String.data_append a taskCompleteMarker).symm⟩

theorem bustMsg_marker (name : String) (c : Card) (s : Nat) :
    markerSuffix (bustMsg name c s) :=
  markerSuffix_append _

theorem autoStandMsg_marker (name : String) (c : Card) :
    markerSuffix (autoStandMsg name c) :=
  markerSuffix_append _

theorem standMsg_marker (name : String) (s : Nat) :
    markerSuffix (standMsg name s) :=
  markerSuffix_append _

theorem forceMsg_marker (maxA : Nat) :
    markerSuffix (forceMsg maxA) :=
  markerSuffix_append _

theorem continueMsg_no_marker (name : String) (c : Card) (s : Nat) :
    ¬ markerSuffix (continueMsg name c s) := by
  intro hsuf
  obtain ⟨t, ht⟩ := hsuf
  have h1 : (t ++ taskCompleteMarker.data).getLast? = some '*' := by
    rw [List.getLast?_append_of_ne_nil t (by decide)]
    rfl
  have h2 : (continueMsg name c s).data.getLast? = some '.' := by
    unfold continueMsg
    rw [String.data_append,
      List.getLast?_append_of_ne_nil _
        (show (". You must call the tool again to decide: HIT or STAND."
          : String).data ≠ [] from by decide)]
    rfl
  rw [ht, h2] at h1
  exact absurd h1 (by decide)

/-! ## Effect lemmas for the round operations -/

theorem dealCard_some (σ : List Card → List Card)
    (hσ : deckInit σ 4 ≠ []) (cards : List Card) :
    ∃ c rest, dealCard σ cards = some (c, rest) := by
  by_cases hc : cards = []
  · subst hc
    refine ⟨(deckInit σ 4).getLast hσ, (deckInit σ 4).dropLast, ?_⟩
    have hstep : dealCard σ [] =
        (match (deckInit σ 4).getLast? with
         | none => none
         | some c => some (c, (deckInit σ 4).dropLast)) := by
      simp [dealCard]
    rw [hstep, List.getLast?_eq_getLast_of_ne_nil hσ]
  · refine ⟨cards.getLast hc, cards.dropLast, ?_⟩
    have hstep : dealCard σ cards =
        (match cards.getLast? with
         | none => none
         | some c => some (c, cards.dropLast)) := by
      simp [dealCard, hc]
    rw [hstep, List.getLast?_eq_getLast_of_ne_nil hc]

theorem hit_effect (σ : List Card → List Card) (g : GameState)
    (name msg : String) (g2 : GameState)
    (h : hit σ g name = some (msg, g2)) :
    g2.player_names = g.player_names ∧
    (∀ n, (lookupHand g.hands n).isSome → (lookupHand g2.hands n).isSome) ∧
    ((name ∉ g.active_players ∧ g2 = g) ∨
     (name ∈ g.active_players ∧
        g2.active_players = g.active_players.erase name) ∨
     (name ∈ g.active_players ∧ g2.active_players = g.active_players)) := by
  unfold hit at h
  by_cases hm : name ∈ g.active_players
  · rw [if_pos hm] at h
    cases hdc : dealCard σ g.deck with
    | none => rw [hdc] at h; exact absurd h (by simp)
    | some p =>
      rcases p with ⟨c, deck2⟩
      rw [hdc] at h
      cases hlk : lookupHand g.hands name with
      | none => rw [hlk] at h; exact absurd h (by simp)
      | some hnd =>
        rw [hlk] at h
        simp only at h
        split_ifs at h with h1 h2 <;>
          rw [Option.some_inj, Prod.mk.injEq] at h <;>
          obtain ⟨hmsg, hg2⟩ := h <;> subst hg2
        · exact ⟨rfl, fun n hn => lookupHand_isSome_setHand _ _ _ _ hn,
            Or.inr (Or.inl ⟨hm, rfl⟩)⟩
        · exact ⟨rfl, fun n hn => lookupHand_isSome_setHand _ _ _ _ hn,
            Or.inr (Or.inl ⟨hm, rfl⟩)⟩
        · exact ⟨rfl, fun n hn => lookupHand_isSome_setHand _ _ _ _ hn,
            Or.inr (Or.inr ⟨hm, rfl⟩)⟩
  · rw [if_neg hm] at h
    rw [Option.some_inj, Prod.mk.injEq] at h
    obtain ⟨hmsg, hg2⟩ := h
    subst hg2
    exact ⟨rfl, fun n hn => hn, Or.inl ⟨hm, rfl⟩⟩

theorem stand_effect (g : GameState) (name msg : String) (g2 : GameState)
    (h : stand g name = some (msg, g2)) :
    g2.player_names = g.player_names ∧ g2.hands = g.hands ∧
    ((name ∉ g.active_players ∧ g2 = g) ∨
     (name ∈ g.active_players ∧
        g2.active_players = g.active_players.erase name)) := by
  unfold stand at h
  by_cases hm : name ∈ g.active_players
  · rw [if_pos hm] at h
    cases hlk : lookupHand g.hands name with
    | none => rw [hlk] at h; exact absurd h (by simp)
    | some hnd =>
      rw [hlk] at h
      rw [Option.some_inj, Prod.mk.injEq] at h
      obtain ⟨hmsg, hg2⟩ := h
      subst hg2
      exact ⟨rfl, rfl, Or.inr ⟨hm, rfl⟩⟩
  · rw [if_neg hm] at h
    rw [Option.some_inj, Prod.mk.injEq] at h
    obtain ⟨hmsg, hg2⟩ := h
    subst hg2
    exact ⟨rfl, rfl, Or.inl ⟨hm, rfl⟩⟩

theorem dealer_play_effect (σ : List Card → List Card) (g : GameState)
    (log : String) (g2 : GameState)
    (h : dealer_play σ g = some (log, g2)) :
    g2.player_names = g.player_names ∧
    g2.active_players = g.active_players ∧
    (∀ n, (lookupHand g.hands n).isSome → (lookupHand g2.hands n).isSome) := by
  unfold dealer_play at h
  cases hlk : lookupHand g.hands dealerName with
  | none => rw [hlk] at h; exact absurd h (by simp)
  | some hand0 =>
    rw [hlk] at h
    simp only at h
    cases hloop : dealerLoop σ g.deck hand0 [revealMsg hand0 (score_hand hand0)] with
    | none => rw [hloop] at h; exact absurd h (by simp)
    | some r =>
      rcases r with ⟨deck2, hand2, log2⟩
      rw [hloop] at h
      simp only at h
      rw [Option.some_inj, Prod.mk.injEq] at h
      obtain ⟨hmsg, hg2⟩ := h
      subst hg2
      exact ⟨rfl, rfl, fun n hn => lookupHand_isSome_setHand _ _ _ _ hn⟩

/-! ## Lemmas about the initial deal -/

theorem foldl_setHand_isSome (names : List String) :
    ∀ (hs : List (String × List Card)) (n : String),
      (lookupHand hs n).isSome →
      (lookupHand (names.foldl (fun h m => setHand h m []) hs) n).isSome := by
  induction names with
  | nil => intro hs n hn; exact hn
  | cons m rest ih =>
    intro hs n hn
    exact ih (setHand hs m []) n (lookupHand_isSome_setHand hs m [] n hn)

theorem foldl_setHand_mem (names : List String) :
    ∀ (hs : List (String × List Card)) (n : String), n ∈ names →
      (lookupHand (names.foldl (fun h m => setHand h m []) hs) n).isSome := by
  induction names with
  | nil => intro hs n hn; exact absurd hn (List.not_mem_nil n)
  | cons m rest ih =>
    intro hs n hn
    simp only [List.foldl_cons]
    rcases List.mem_cons.mp hn with he | ht
    · subst he
      apply foldl_setHand_isSome rest
      rw [lookupHand_setHand]
      simp
    · exact ih (setHand hs m []) n ht

theorem lookupHand_initHands_dealer (names : List String) :
    (lookupHand (initHands names) dealerName).isSome := by
  unfold initHands
  rw [lookupHand_setHand]
  simp

theorem lookupHand_initHands_mem (names : List String) (n : String)
    (hn : n ∈ names) :
    (lookupHand (initHands names) n).isSome := by
  unfold initHands
  apply lookupHand_isSome_setHand
  exact foldl_setHand_mem names [] n hn

theorem dealOneTo_fields (σ : List Card → List Card) (g : GameState)
    (m : String) (g1 : GameState) (h : dealOneTo σ g m = some g1) :
    g1.player_names = g.player_names ∧
    g1.active_players = g.active_players ∧
    g1.game_status = g.game_status ∧
    ∀ n, (lookupHand g.hands n).isSome → (lookupHand g1.hands n).isSome := by
  unfold dealOneTo at h
  cases hdc : dealCard σ g.deck with
  | none => rw [hdc] at h; exact absurd h (by simp)
  | some p =>
    rcases p with ⟨c, deck2⟩
    rw [hdc] at h
    simp only at h
    cases hlk : lookupHand g.hands m with
    | none => rw [hlk] at h; exact absurd h (by simp)
    | some hnd =>
      rw [hlk] at h
      simp only [Option.some_inj] at h
      subst h
      exact ⟨rfl, rfl, rfl, fun n hn => lookupHand_isSome_setHand _ _ _ _ hn⟩

theorem dealToAll_fields (σ : List Card → List Card) :
    ∀ (ns : List String) (g g2 : GameState), dealToAll σ g ns = some g2 →
      g2.player_names = g.player_names ∧
      g2.active_players = g.active_players ∧
      g2.game_status = g.game_status ∧
      ∀ n, (lookupHand g.hands n).isSome → (lookupHand g2.hands n).isSome := by
  intro ns
  induction ns with
  | nil =>
    intro g g2 h
    simp only [dealToAll, Option.some_inj] at h
    subst h
    exact ⟨rfl, rfl, rfl, fun n hn => hn⟩
  | cons m rest ih =>
    intro g g2 h
    simp only [dealToAll] at h
    cases hdo : dealOneTo σ g m with
    | none => rw [hdo] at h; exact absurd h (by simp)
    | some g1 =>
      rw [hdo] at h
      simp only [Option.some_bind] at h
      obtain ⟨h1, h2, h3, h4⟩ := ih g1 g2 h
      obtain ⟨k1, k2, k3, k4⟩ := dealOneTo_fields σ g m g1 hdo
      exact ⟨h1.trans k1, h2.trans k2, h3.trans k3,
        fun n hn => h4 n (k4 n hn)⟩

theorem deal_initial_fields (σ : List Card → List Card) (g g2 : GameState)
    (h : deal_initial_cards σ g = some g2) :
    g2.player_names = g.player_names ∧
    g2.active_players = g.player_names.toFinset ∧
    g2.game_status = "IN_PROGRESS" ∧
    (lookupHand g2.hands dealerName).isSome ∧
    (∀ n ∈ g.player_names, (lookupHand g2.hands n).isSome) := by
  simp only [deal_initial_cards] at h
  cases h1 : dealToAll σ
      { g with hands := initHands g.player_names,
               active_players := g.player_names.toFinset }
      (g.player_names ++ [dealerName]) with
  | none => rw [h1] at h; exact absurd h (by simp)
  | some gA =>
    rw [h1] at h
    simp only [Option.some_bind] at h
    cases h2 : dealToAll σ gA (g.player_names ++ [dealerName]) with
    | none => rw [h2] at h; exact absurd h (by simp)
    | some gB =>
      rw [h2] at h
      simp only [Option.map_some', Option.some_inj] at h
      subst h
      obtain ⟨a1, a2, a3, a4⟩ := dealToAll_fields σ _ _ _ h1
      obtain ⟨b1, b2, b3, b4⟩ := dealToAll_fields σ _ _ _ h2
      refine ⟨?_, ?_, rfl, ?_, ?_⟩
      · exact b1.trans a1
      · exact b2.trans a2
      · exact b4 _ (a4 _ (lookupHand_initHands_dealer g.player_names))
      · intro n hn
        exact b4 _ (a4 _ (lookupHand_initHands_mem g.player_names n hn))

/-! ## The reachability invariant -/

theorem reach_invariant (σ : List Card → List Card) (g : GameState)
    (f : String → Bool) (hr : ReachT σ g f) :
    (∀ n, n ∈ g.active_players ↔ (n ∈ g.player_names ∧ f n = false)) ∧
    (lookupHand g.hands dealerName).isSome ∧
    (∀ n ∈ g.active_players, (lookupHand g.hands n).isSome) := by
  induction hr with
  | init names =>
    refine ⟨?_, lookupHand_initHands_dealer names, ?_⟩
    · intro n
      simp [gameInit, List.mem_toFinset]
    · intro n hn
      exact lookupHand_initHands_mem names n (by simpa [gameInit] using hn)
  | deal g f g2 hr hd ih =>
    obtain ⟨d1, d2, d3, d4, d5⟩ := deal_initial_fields σ g g2 hd
    refine ⟨?_, d4, ?_⟩
    · intro n
      rw [d2, d1, List.mem_toFinset]
      simp
    · intro n hn
      rw [d2, List.mem_toFinset] at hn
      exact d5 n hn
  | hitStep g f name msg g2 hr heq ih =>
    obtain ⟨hpn, hiso, hcase⟩ := hit_effect σ g name msg g2 heq
    obtain ⟨iff1, dl1, act1⟩ := ih
    have hmem : ∀ n, n ∈ g2.active_players → n ∈ g.active_players := by
      intro n hn
      rcases hcase with ⟨_, he⟩ | ⟨_, he⟩ | ⟨_, he⟩
      · rw [he] at hn; exact hn
      · rw [he] at hn; exact Finset.mem_of_mem_erase hn
      · rw [he] at hn; exact hn
    refine ⟨?_, hiso _ dl1, fun n hn => hiso _ (act1 n (hmem n hn))⟩
    intro n
    rw [hpn]
    rcases hcase with ⟨hni, he⟩ | ⟨hac, he⟩ | ⟨hac, he⟩
    · have hfu : finishUpdate g g2 f n = f n := by
        unfold finishUpdate
        rw [he]
        by_cases hx : n ∈ g.active_players <;> simp [hx]
      rw [hfu, he]
      exact iff1 n
    · by_cases hn : n = name
      · subst hn
        have hfu : finishUpdate g g2 f n = true := by
          unfold finishUpdate
          rw [he]
          simp [hac, Finset.not_mem_erase]
        rw [hfu, he]
        simp [Finset.not_mem_erase]
      · have hmm : n ∈ g2.active_players ↔ n ∈ g.active_players := by
          rw [he, Finset.mem_erase]
          simp [hn]
        have hfu : finishUpdate g g2 f n = f n := by
          unfold finishUpdate
          by_cases hx : n ∈ g.active_players
          · simp [hx, hmm.mpr hx]
          · simp [hx]
        rw [hfu, hmm]
        exact iff1 n
    · have hfu : finishUpdate g g2 f n = f n := by
        unfold finishUpdate
        rw [he]
        by_cases hx : n ∈ g.active_players <;> simp [hx]
      rw [hfu, he]
      exact iff1 n
  | standStep g f name msg g2 hr heq ih =>
    obtain ⟨hpn, hh, hcase⟩ := stand_effect g name msg g2 heq
    obtain ⟨iff1, dl1, act1⟩ := ih
    have hmem : ∀ n, n ∈ g2.active_players → n ∈ g.active_players := by
      intro n hn
      rcases hcase with ⟨_, he⟩ | ⟨_, he⟩
      · rw [he] at hn; exact hn
      · rw [he] at hn; exact Finset.mem_of_mem_erase hn
    refine ⟨?_, by rw [hh]; exact dl1,
      fun n hn => by rw [hh]; exact act1 n (hmem n hn)⟩
    intro n
    rw [hpn]
    rcases hcase with ⟨hni, he⟩ | ⟨hac, he⟩
    · have hfu : finishUpdate g g2 f n = f n := by
        unfold finishUpdate
        rw [he]
        by_cases hx : n ∈ g.active_players <;> simp [hx]
      rw [hfu, he]
      exact iff1 n
    · by_cases hn : n = name
      · subst hn
        have hfu : finishUpdate g g2 f n = true := by
          unfold finishUpdate
          rw [he]
          simp [hac, Finset.not_mem_erase]
        rw [hfu, he]
        simp [Finset.not_mem_erase]
      · have hmm : n ∈ g2.active_players ↔ n ∈ g.active_players := by
          rw [he, Finset.mem_erase]
          simp [hn]
        have hfu : finishUpdate g g2 f n = f n := by
          unfold finishUpdate
          by_cases hx : n ∈ g.active_players
          · simp [hx, hmm.mpr hx]
          · simp [hx]
        rw [hfu, hmm]
        exact iff1 n
  | dealerStep g f log g2 hr heq ih =>
    obtain ⟨hpn, hact, hiso⟩ := dealer_play_effect σ g log g2 heq
    obtain ⟨iff1, dl1, act1⟩ := ih
    refine ⟨?_, hiso _ dl1, ?_⟩
    · intro n
      rw [hpn, hact]
      exact iff1 n
    · intro n hn
      rw [hact] at hn
      exact hiso _ (act1 n hn)

/-! ## Claim C1 — the `hit` operation -/

/-- C1: in every reachable state, `hit(name)` on an inactive `name`
returns the already-finished message and changes nothing; on an active
`name` it draws exactly one card into `name`'s hand and recomputes the
score, then (a) on a score above 21 it removes `name` from the active
set and returns the bust message, (b) on a score of exactly 21 it
removes `name` from the active set and returns the automatic-stand
message, (c) otherwise it leaves the active set unchanged and returns
the continue message; the two turn-complete messages carry the
`**TASK COMPLETE.**` marker as a suffix and the continue message never
does, whatever the participant's name. -/
theorem hit_correct (σ : List Card → List Card) (f : String → Bool)
    (g : GameState) (name : String) (hr : ReachT σ g f)
    (hσ : deckInit σ 4 ≠ []) :
    (name ∉ g.active_players →
      hit σ g name = some (alreadyFinishedMsg name, g)) ∧
    (name ∈ g.active_players →
      ∃ c deck2 hnd, dealCard σ g.deck = some (c, deck2) ∧
        lookupHand g.hands name = some hnd ∧
        (21 < score_hand (hnd ++ [c]) →
          hit σ g name = some (bustMsg name c (score_hand (hnd ++ [c])),
            { g with deck := deck2,
                     hands := setHand g.hands name (hnd ++ [c]),
                     active_players := g.active_players.erase name }) ∧
          markerSuffix (bustMsg name c (score_hand (hnd ++ [c])))) ∧
        (score_hand (hnd ++ [c]) = 21 →
          hit σ g name = some (autoStandMsg name c,
            { g with deck := deck2,
                     hands := setHand g.hands name (hnd ++ [c]),
                     active_players := g.active_players.erase name }) ∧
          markerSuffix (autoStandMsg name c)) ∧
        (score_hand (hnd ++ [c]) < 21 →
          hit σ g name = some (continueMsg name c (score_hand (hnd ++ [c])),
            { g with deck := deck2,
                     hands := setHand g.hands name (hnd ++ [c]) }) ∧
          ¬ markerSuffix (continueMsg name c (score_hand (hnd ++ [c]))))) := by
  constructor
  · intro h
    simp [hit, h]
  · intro hmem
    obtain ⟨c, deck2, hdc⟩ := dealCard_some σ hσ g.deck
    have hhand := (reach_invariant σ g f hr).2.2 name hmem
    obtain ⟨hnd, hlk⟩ := Option.isSome_iff_exists.mp hhand
    refine ⟨c, deck2, hnd, hdc, hlk, ?_, ?_, ?_⟩
    · intro hgt
      refine ⟨?_, bustMsg_marker name c _⟩
      simp only [hit, if_pos hmem, hdc, hlk]
      simp [hgt]
    · intro h21
      refine ⟨?_, autoStandMsg_marker name c⟩
      simp only [hit, if_pos hmem, hdc, hlk]
      have h1 : ¬ (21 < score_hand (hnd ++ [c])) := by omega
      simp [h1, h21]
    · intro hlt
      refine ⟨?_, continueMsg_no_marker name c _⟩
      simp only [hit, if_pos hmem, hdc, hlk]
      have h1 : ¬ (21 < score_hand (hnd ++ [c])) := by omega
      have h2 : score_hand (hnd ++ [c]) ≠ 21 := by omega
      simp [h1, h2]

/-- Witness for C1: the freshly constructed one-player game, whose
construction is reachable and whose identity-shuffled shoe is
nonempty. -/
theorem hit_correct_witness :
    ("P1" ∉ (gameInit id ["P1"]).active_players →
      hit id (gameInit id ["P1"]) "P1" =
        some (alreadyFinishedMsg "P1", gameInit id ["P1"])) ∧
    ("P1" ∈ (gameInit id ["P1"]).active_players →
      ∃ c deck2 hnd,
        dealCard id (gameInit id ["P1"]).deck = some (c, deck2) ∧
        lookupHand (gameInit id ["P1"]).hands "P1" = some hnd ∧
        (21 < score_hand (hnd ++ [c]) →
          hit id (gameInit id ["P1"]) "P1" =
            some (bustMsg "P1" c (score_hand (hnd ++ [c])),
              { (gameInit id ["P1"]) with
                deck := deck2,
                hands := setHand (gameInit id ["P1"]).hands "P1" (hnd ++ [c]),
                active_players :=
                  (gameInit id ["P1"]).active_players.erase "P1" }) ∧
          markerSuffix (bustMsg "P1" c (score_hand (hnd ++ [c])))) ∧
        (score_hand (hnd ++ [c]) = 21 →
          hit id (gameInit id ["P1"]) "P1" =
            some (autoStandMsg "P1" c,
              { (gameInit id ["P1"]) with
                deck := deck2,
                hands := setHand (gameInit id ["P1"]).hands "P1" (hnd ++ [c]),
                active_players :=
                  (gameInit id ["P1"]).active_players.erase "P1" }) ∧
          markerSuffix (autoStandMsg "P1" c)) ∧
        (score_hand (hnd ++ [c]) < 21 →
          hit id (gameInit id ["P1"]) "P1" =
            some (continueMsg "P1" c (score_hand (hnd ++ [c])),
              { (gameInit id ["P1"]) with
                deck := deck2,
                hands := setHand (gameInit id ["P1"]).hands "P1"
                  (hnd ++ [c]) }) ∧
          ¬ markerSuffix (continueMsg "P1" c (score_hand (hnd ++ [c]))))) :=
  hit_correct id (fun _ => false) (gameInit id ["P1"]) "P1"
    (ReachT.init ["P1"]) (by decide)

/-! ## Claim C3 — the active-set invariant -/

/-- C3 (amended): in every reachable state, a name is active exactly
when it is one of the round's participants and no accepted `hit` or
`stand` has finished it (by standing, busting, or reaching 21) since the
round's last deal; the dealer always has a registered hand, and as long
as no participant is literally named `Dealer`, the dealer name is never
active.  A participant dealt a natural 21 by `deal_initial_cards` is
*not* removed from the active set (see the counterexample), so "reached
a score of 21" deactivates only through a `hit`. -/
theorem active_iff_unfinished (σ : List Card → List Card) (g : GameState)
    (f : String → Bool) (hr : ReachT σ g f) :
    (∀ n, n ∈ g.active_players ↔ (n ∈ g.player_names ∧ f n = false)) ∧
    (lookupHand g.hands dealerName).isSome ∧
    (dealerName ∉ g.player_names → dealerName ∉ g.active_players) := by
  obtain ⟨h1, h2, h3⟩ := reach_invariant σ g f hr
  exact ⟨h1, h2, fun hd hmem => hd ((h1 dealerName).mp hmem).1⟩

/-- Witness for C3: the invariant instantiated at a freshly constructed
one-player game. -/
theorem active_iff_unfinished_witness :
    (∀ n, n ∈ (gameInit id ["A"]).active_players ↔
      (n ∈ (gameInit id ["A"]).player_names ∧ (fun _ => false) n = false)) ∧
    (lookupHand (gameInit id ["A"]).hands dealerName).isSome ∧
    (dealerName ∉ (gameInit id ["A"]).player_names →
      dealerName ∉ (gameInit id ["A"]).active_players) :=
  active_iff_unfinished id (gameInit id ["A"]) (fun _ => false)
    (ReachT.init ["A"])

/-- A shuffle that rotates the fresh shoe by 53 positions; applied to
the 208-card fresh deck it is a permutation, i.e. a possible outcome of
`random.shuffle`, and it puts an Ace and a King on top for the first
player. -/
def cexShuffle (l : List Card) : List Card :=
  l.drop 53 ++ l.take 53

/-- The one-player game constructed with the rotated shuffle. -/
def cexG0 : GameState := gameInit cexShuffle ["P1"]

/-- The state right after the initial deal of `cexG0`. -/
def cexG1 : GameState := (deal_initial_cards cexShuffle cexG0).getD cexG0

set_option maxRecDepth 80000 in
/-- C3c (counterexample): the state reached by constructing a one-player
game with a legitimate shuffle (a rotation is a permutation of the fresh
shoe) and dealing the initial cards gives P1 the hand Ace + King — a
score of exactly 21 — yet P1 is still a member of the active set, so
"active iff not yet busted, stood, or reached a score of 21" fails on
the initial deal. -/
theorem natural21_counterexample :
    deal_initial_cards cexShuffle cexG0 = some cexG1 ∧
    ReachT cexShuffle cexG1 (fun _ => false) ∧
    (cexShuffle (freshDeckCards 4)).Perm (freshDeckCards 4) ∧
    "P1" ∈ cexG1.active_players ∧
    playerStateScore cexG1 "P1" = 21 := by
  have hdeal : deal_initial_cards cexShuffle cexG0 = some cexG1 := by decide
  refine ⟨hdeal, ReachT.deal cexG0 (fun _ => false) cexG1
    (ReachT.init ["P1"]) hdeal, ?_, by decide, by decide⟩
  have hperm : ((freshDeckCards 4).drop 53 ++ (freshDeckCards 4).take 53).Perm
      ((freshDeckCards 4).take 53 ++ (freshDeckCards 4).drop 53) :=
    List.perm_append_comm
  unfold cexShuffle
  rw [List.take_append_drop] at hperm
  exact hperm

/-! ## Claim C4 — dealer play -/

/-- The per-draw log entries of the dealer loop, in draw order. -/
def drawMsgs (hand : List Card) : List Card → List String
  | [] => []
  | c :: cs =>
    dealerHitMsg c (score_hand (hand ++ [c])) :: drawMsgs (hand ++ [c]) cs

theorem dealerLoop_spec (σ : List Card → List Card) (hσ : deckInit σ 4 ≠ [])
    (deck hand : List Card) (log : List String) :
    ∃ cs deck2,
      dealerLoop σ deck hand log =
        some (deck2, hand ++ cs, log ++ drawMsgs hand cs) ∧
      17 ≤ score_hand (hand ++ cs) ∧
      (∀ i < cs.length, score_hand (hand ++ cs.take i) < 17) := by
  by_cases hlt : score_hand hand < 17
  · obtain ⟨c, deck2, hdc⟩ := dealCard_some σ hσ deck
    obtain ⟨cs, deck3, hrec, hsc, hstop⟩ :=
      dealerLoop_spec σ hσ deck2 (hand ++ [c])
        (log ++ [dealerHitMsg c (score_hand (hand ++ [c]))])
    refine ⟨c :: cs, deck3, ?_, ?_, ?_⟩
    · have hstep : dealerLoop σ deck hand log =
          dealerLoop σ deck2 (hand ++ [c])
            (log ++ [dealerHitMsg c (score_hand (hand ++ [c]))]) := by
        rw [dealerLoop]
        simp [hlt, hdc]
      rw [hstep, hrec]
      simp [drawMsgs, List.append_assoc]
    · simpa [List.append_assoc] using hsc
    · intro i hi
      cases i with
      | zero => simpa using hlt
      | succ j =>
        have hj := hstop j (by simpa using hi)
        simpa [List.append_assoc] using hj
  · refine ⟨[], deck, ?_, by simp only [List.append_nil]; omega, by simp⟩
    rw [dealerLoop]
    simp [hlt, drawMsgs]
termination_by 17 - hardTotal hand
decreasing_by
  have h1 : hardTotal hand ≤ score_hand hand := hardTotal_le_score hand
  have h2 := hardTotal_append hand c
  omega

/-- C4: `dealer_play` draws one card at a time exactly while the
dealer's score (per `score_hand`, so a soft 17 already counts as 17 —
no soft-17 redraw) is below 17, stops at the first score of 17 or more,
logs the reveal line, one entry per draw in draw order, and a terminal
bust (score above 21) or stand entry, sets the status to `FINISHED`,
and afterwards the dealer's score is at least 17. -/
theorem dealer_play_correct (σ : List Card → List Card) (g : GameState)
    (dh : List Card) (hσ : deckInit σ 4 ≠ [])
    (hd : lookupHand g.hands dealerName = some dh) :
    ∃ cs deck2,
      dealer_play σ g = some
        (joinNL (revealMsg dh (score_hand dh) :: (drawMsgs dh cs ++
          [if 21 < score_hand (dh ++ cs)
           then dealerBustMsg (score_hand (dh ++ cs))
           else dealerStandMsg (score_hand (dh ++ cs))])),
         { g with deck := deck2,
                  hands := setHand g.hands dealerName (dh ++ cs),
                  game_status := "FINISHED" }) ∧
      17 ≤ score_hand (dh ++ cs) ∧
      (∀ i < cs.length, score_hand (dh ++ cs.take i) < 17) := by
  obtain ⟨cs, deck2, hrun, hsc, hstop⟩ :=
    dealerLoop_spec σ hσ g.deck dh [revealMsg dh (score_hand dh)]
  refine ⟨cs, deck2, ?_, hsc, hstop⟩
  unfold dealer_play
  rw [hd]
  simp only
  rw [hrun]
  simp only
  rw [Option.some_inj, Prod.mk.injEq]
  refine ⟨?_, rfl⟩
  congr 1

/-- Witness for C4: a game whose dealer already holds King + Queen
(score 20), with the identity shuffle. -/
theorem dealer_play_correct_witness :
    ∃ cs deck2,
      dealer_play id
        { deck := [], hands := [("Dealer",
            [Card.mk Rank.king Suit.spades, Card.mk Rank.queen Suit.hearts])],
          player_names := [], active_players := ∅,
          game_status := "IN_PROGRESS" } = some
        (joinNL (revealMsg
            [Card.mk Rank.king Suit.spades, Card.mk Rank.queen Suit.hearts]
            (score_hand [Card.mk Rank.king Suit.spades,
              Card.mk Rank.queen Suit.hearts]) :: (drawMsgs
            [Card.mk Rank.king Suit.spades, Card.mk Rank.queen Suit.hearts]
            cs ++
          [if 21 < score_hand ([Card.mk Rank.king Suit.spades,
              Card.mk Rank.queen Suit.hearts] ++ cs)
           then dealerBustMsg (score_hand ([Card.mk Rank.king Suit.spades,
              Card.mk Rank.queen Suit.hearts] ++ cs))
           else dealerStandMsg (score_hand ([Card.mk Rank.king Suit.spades,
              Card.mk Rank.queen Suit.hearts] ++ cs))])),
         { deck := deck2, hands := setHand
             [("Dealer", [Card.mk Rank.king Suit.spades,
                Card.mk Rank.queen Suit.hearts])] dealerName
             ([Card.mk Rank.king Suit.spades,
               Card.mk Rank.queen Suit.hearts] ++ cs),
           player_names := [], active_players := ∅,
           game_status := "FINISHED" }) ∧
      17 ≤ score_hand ([Card.mk Rank.king Suit.spades,
        Card.mk Rank.queen Suit.hearts] ++ cs) ∧
      (∀ i < cs.length, score_hand ([Card.mk Rank.king Suit.spades,
        Card.mk Rank.queen Suit.hearts] ++ cs.take i) < 17) :=
  dealer_play_correct id
    { deck := [], hands := [("Dealer",
        [Card.mk Rank.king Suit.spades, Card.mk Rank.queen Suit.hearts])],
      player_names := [], active_players := ∅,
      game_status := "IN_PROGRESS" }
    [Card.mk Rank.king Suit.spades, Card.mk Rank.queen Suit.hearts]
    (by decide) (by decide)

/-! ## Claim C10 — the player-state query -/

/-- C10: `get_player_state(name)` returns normally for every name —
including names with no registered hand, which are scored as the empty
hand, 0 — whenever the dealer's hand holds at least one card; whenever
the dealer's registered hand is empty (in particular in the `READY`
state before any deal) it fails on the unconditional indexing of the
dealer's up card instead of returning a result.  The function reads the
state and builds a string; it performs no mutation. -/
theorem get_player_state_correct (g : GameState) (name : String)
    (dh : List Card) (hd : lookupHand g.hands dealerName = some dh) :
    (dh ≠ [] → (get_player_state g name).isSome) ∧
    (dh = [] → get_player_state g name = none) ∧
    (lookupHand g.hands name = none → playerStateScore g name = 0) := by
  refine ⟨?_, ?_, ?_⟩
  · intro hne
    obtain ⟨c, t, hct⟩ : ∃ c t, dh = c :: t := by
      cases dh with
      | nil => exact absurd rfl hne
      | cons c t => exact ⟨c, t, rfl⟩
    unfold get_player_state dealerUpCard
    rw [hd, hct]
    simp
  · intro h0
    subst h0
    unfold get_player_state dealerUpCard
    rw [hd]
  · intro hnone
    unfold playerStateScore
    rw [hnone]
    rfl

/-- Witness for C10: the freshly constructed game, whose dealer hand is
registered but still empty, so the query fails exactly as stated. -/
theorem get_player_state_correct_witness :
    (([] : List Card) ≠ [] →
      (get_player_state (gameInit id ["P1"]) "P1").isSome) ∧
    (([] : List Card) = [] →
      get_player_state (gameInit id ["P1"]) "P1" = none) ∧
    (lookupHand (gameInit id ["P1"]).hands "P1" = none →
      playerStateScore (gameInit id ["P1"]) "P1" = 0) :=
  get_player_state_correct (gameInit id ["P1"]) "P1" [] (by decide)

/-! ## Claim C5 — winner determination -/

/-- C5: `determine_winner` reports, for each non-dealer entry of the
hand mapping in insertion order, the outcome fixed by: a player score
above 21 loses regardless of the dealer; otherwise a dealer score above
21 wins for the player; otherwise the higher score wins and equal
scores push.  It mutates nothing — the state comes back verbatim — so a
second call returns the identical result. -/
theorem determine_winner_correct (g : GameState) (dh : List Card)
    (hd : lookupHand g.hands dealerName = some dh) :
    determine_winner g = some
      (joinNL (resultsHeader dh (score_hand dh) ::
        g.hands.filterMap fun p =>
          if p.1 = dealerName then none
          else some (resultLine p.1 p.2 (score_hand dh))), g) ∧
    (∀ ps ds : Nat,
      (21 < ps → outcomeFor ps ds = "BUSTED - Dealer WINS.") ∧
      (ps ≤ 21 → 21 < ds → outcomeFor ps ds = "Dealer BUSTED - Player WINS.") ∧
      (ps ≤ 21 → ds ≤ 21 → ds < ps → outcomeFor ps ds = "Player WINS.") ∧
      (ps ≤ 21 → ds ≤ 21 → ps < ds → outcomeFor ps ds = "Dealer WINS.") ∧
      (ps ≤ 21 → ds ≤ 21 → ps = ds → outcomeFor ps ds = "PUSH (Tie).")) ∧
    (∀ t g2, determine_winner g = some (t, g2) →
      g2 = g ∧ determine_winner g2 = some (t, g2)) := by
  have hmain : determine_winner g = some
      (joinNL (resultsHeader dh (score_hand dh) ::
        g.hands.filterMap fun p =>
          if p.1 = dealerName then none
          else some (resultLine p.1 p.2 (score_hand dh))), g) := by
    unfold determine_winner
    rw [hd]
  refine ⟨hmain, ?_, ?_⟩
  · intro ps ds
    refine ⟨?_, ?_, ?_, ?_, ?_⟩
    · intro h1
      simp [outcomeFor, h1]
    · intro h1 h2
      have hn1 : ¬ 21 < ps := by omega
      simp [outcomeFor, hn1, h2]
    · intro h1 h2 h3
      have hn1 : ¬ 21 < ps := by omega
      have hn2 : ¬ 21 < ds := by omega
      simp [outcomeFor, hn1, hn2, h3]
    · intro h1 h2 h3
      have hn1 : ¬ 21 < ps := by omega
      have hn2 : ¬ 21 < ds := by omega
      have hn3 : ¬ ds < ps := by omega
      simp [outcomeFor, hn1, hn2, hn3, h3]
    · intro h1 h2 h3
      have hn1 : ¬ 21 < ps := by omega
      have hn2 : ¬ 21 < ds := by omega
      have hn3 : ¬ ds < ps := by omega
      have hn4 : ¬ ps < ds := by omega
      simp [outcomeFor, hn1, hn2, hn3, hn4]
  · intro t g2 ht
    rw [hmain, Option.some_inj, Prod.mk.injEq] at ht
    obtain ⟨ht1, ht2⟩ := ht
    subst ht2
    refine ⟨rfl, ?_⟩
    rw [hmain, ht1]

/-- Witness for C5: the freshly constructed empty-table game, whose
dealer hand is registered (and empty, scoring 0). -/
theorem determine_winner_correct_witness :
    (determine_winner (gameInit id []) = some
      (joinNL (resultsHeader [] (score_hand []) ::
        (gameInit id []).hands.filterMap fun p =>
          if p.1 = dealerName then none
          else some (resultLine p.1 p.2 (score_hand []))), gameInit id [])) ∧
    (∀ ps ds : Nat,
      (21 < ps → outcomeFor ps ds = "BUSTED - Dealer WINS.") ∧
      (ps ≤ 21 → 21 < ds → outcomeFor ps ds = "Dealer BUSTED - Player WINS.") ∧
      (ps ≤ 21 → ds ≤ 21 → ds < ps → outcomeFor ps ds = "Player WINS.") ∧
      (ps ≤ 21 → ds ≤ 21 → ps < ds → outcomeFor ps ds = "Dealer WINS.") ∧
      (ps ≤ 21 → ds ≤ 21 → ps = ds → outcomeFor ps ds = "PUSH (Tie).")) ∧
    (∀ t g2, determine_winner (gameInit id []) = some (t, g2) →
      g2 = gameInit id [] ∧ determine_winner g2 = some (t, g2)) :=
  determine_winner_correct (gameInit id []) [] (by decide)

/-! ## Claim C6 — the action gateway -/

theorem string_data_ext (s t : String) (h : s.data = t.data) : s = t := by
  cases s
  cases t
  simp only at h
  rw [h]

/-- The claim's "stripping a `()` suffix": remove one trailing `()`
when present. -/
def stripParens (s : String) : String :=
  match s.data.reverse with
  | c1 :: c2 :: rest => if c1 = ')' ∧ c2 = '(' then String.mk rest.reverse else s
  | _ => s

theorem stripParens_cases (s : String) :
    stripParens s = s ∨ s.data = (stripParens s).data ++ ['(', ')'] := by
  rcases hrev : s.data.reverse with _ | ⟨c1, rest1⟩
  · left
    unfold stripParens
    rw [hrev]
  · rcases rest1 with _ | ⟨c2, rest⟩
    · left
      unfold stripParens
      rw [hrev]
    · by_cases hpar : c1 = ')' ∧ c2 = '('
      · right
        have h1 : stripParens s = String.mk rest.reverse := by
          unfold stripParens
          rw [hrev]
          simp only
          rw [if_pos hpar]
        rw [h1]
        have h2 : s.data = (c1 :: c2 :: rest).reverse := by
          rw [← hrev, List.reverse_reverse]
        rw [h2, hpar.1, hpar.2]
        simp [List.reverse_cons, List.append_assoc]
      · left
        unfold stripParens
        rw [hrev]
        simp only
        rw [if_neg hpar]

theorem stripParens_eq_hit (s : String) :
    stripParens s = "hit" ↔ (s = "hit" ∨ s = "hit()") := by
  constructor
  · intro h
    rcases stripParens_cases s with hc | hc
    · left
      rw [← hc, h]
    · right
      rw [h] at hc
      apply string_data_ext
      rw [hc]
      decide
  · intro h
    rcases h with h | h <;> subst h <;> decide

theorem stripParens_eq_stand (s : String) :
    stripParens s = "stand" ↔ (s = "stand" ∨ s = "stand()") := by
  constructor
  · intro h
    rcases stripParens_cases s with hc | hc
    · left
      rw [← hc, h]
    · right
      rw [h] at hc
      apply string_data_ext
      rw [hc]
      decide
  · intro h
    rcases h with h | h <;> subst h <;> decide

/-- The JSON payload of the claim's equivalence example. -/
def jsonHitLit : String := "\x7b\"action\":\"Hit\"\x7d"

/-- C6: `_run` dispatches exactly on the claim's normalization — trim,
JSON-object `action` extraction when the trimmed text is brace
delimited, trim again, lower-case, strip one `()` suffix: the result
`hit` calls `hit(name)`, `stand` calls `stand(name)`, and anything else
returns the invalid-action message with the game state untouched.  In
particular, when the JSON extraction reads `Hit` out of
`'\x7b"action":"Hit"\x7d'`, submitting that payload and submitting the bare
word `hit` both perform the same single `hit` call. -/
theorem gameActionRun_correct (J : String → Option String)
    (σ : List Card → List Card) (g : GameState) (name raw : String) :
    (gameActionRun J σ g name raw =
      if stripParens (normalizeText J raw) = "hit" then hit σ g name
      else if stripParens (normalizeText J raw) = "stand" then stand g name
      else some (invalidActionMsg, g)) ∧
    (J jsonHitLit = some "Hit" →
      gameActionRun J σ g name jsonHitLit = hit σ g name ∧
      gameActionRun J σ g name "hit" = hit σ g name) := by
  constructor
  · by_cases h1 : normalizeText J raw = "hit" ∨ normalizeText J raw = "hit()"
    · have hs : stripParens (normalizeText J raw) = "hit" :=
        (stripParens_eq_hit _).mpr h1
      have hl : gameActionRun J σ g name raw = hit σ g name := by
        unfold gameActionRun
        rw [if_pos h1]
      rw [hl, hs, if_pos rfl]
    · by_cases h2 : normalizeText J raw = "stand" ∨ normalizeText J raw = "stand()"
      · have hs2 : stripParens (normalizeText J raw) = "stand" :=
          (stripParens_eq_stand _).mpr h2
        have hns : stripParens (normalizeText J raw) ≠ "hit" := by
          rw [hs2]
          decide
        have hl : gameActionRun J σ g name raw = stand g name := by
          unfold gameActionRun
          rw [if_neg h1, if_pos h2]
        rw [hl, if_neg hns, hs2, if_pos rfl]
      · have hns : stripParens (normalizeText J raw) ≠ "hit" :=
          fun hcon => h1 ((stripParens_eq_hit _).mp hcon)
        have hns2 : stripParens (normalizeText J raw) ≠ "stand" :=
          fun hcon => h2 ((stripParens_eq_stand _).mp hcon)
        have hl : gameActionRun J σ g name raw = some (invalidActionMsg, g) := by
          unfold gameActionRun
          rw [if_neg h1, if_neg h2]
        rw [hl, if_neg hns, if_neg hns2]
  · intro hJ
    have hnorm : normalizeText J jsonHitLit = "hit" := by
      simp only [normalizeText]
      rw [show pyStrip jsonHitLit = jsonHitLit from by decide]
      rw [show (pyStartsWith jsonHitLit "\x7b" && pyEndsWith jsonHitLit "\x7d") =
        true from by decide]
      rw [if_pos rfl, hJ]
      decide
    have hn2 : normalizeText J "hit" = "hit" := by
      simp only [normalizeText]
      rw [show pyStrip "hit" = "hit" from by decide]
      rw [show (pyStartsWith "hit" "\x7b" && pyEndsWith "hit" "\x7d") = false
        from by decide]
      rw [if_neg (by decide : ¬ (false = true))]
      decide
    constructor
    · unfold gameActionRun
      rw [hnorm, if_pos (Or.inl rfl)]
    · unfold gameActionRun
      rw [hn2, if_pos (Or.inl rfl)]

/-- A JSON extraction function that reads `Hit` out of the example
payload, as Python's `json.loads` does. -/
def jsonJ : String → Option String :=
  fun s => if s = jsonHitLit then some "Hit" else none

/-- Witness for C6: the JSON payload and the bare word dispatch to the
same `hit` call on a concrete game. -/
theorem gameActionRun_correct_witness :
    gameActionRun jsonJ id (gameInit id ["P1"]) "P1" jsonHitLit =
      hit id (gameInit id ["P1"]) "P1" ∧
    gameActionRun jsonJ id (gameInit id ["P1"]) "P1" "hit" =
      hit id (gameInit id ["P1"]) "P1" :=
  (gameActionRun_correct jsonJ id (gameInit id ["P1"]) "P1" jsonHitLit).2
    (by decide)

/-! ## Claim C7 — the turn guard -/

theorem getCount_bumpCount (cs : List (String × Nat)) (n : String) :
    getCount (bumpCount cs n) n = getCount cs n + 1 := by
  induction cs with
  | nil => simp [bumpCount, getCount]
  | cons p rest ih =>
    rcases p with ⟨k, v⟩
    by_cases hk : k = n
    · simp [bumpCount, getCount, hk]
    · simp [bumpCount, getCount, hk, ih]

theorem safeRun_guardState (J : String → Option String)
    (σ : List Card → List Card) (gs : GuardState) (g : GameState)
    (name action msg : String) (gs2 : GuardState) (g2 : GameState)
    (h : safeGameActionRun J σ gs g name action = some (msg, gs2, g2)) :
    gs2 = { gs with counts := bumpCount gs.counts name } := by
  simp only [safeGameActionRun] at h
  by_cases hc : getCount (bumpCount gs.counts name) name > gs.max_actions
  · rw [if_pos hc] at h
    rw [Option.some_inj, Prod.mk.injEq, Prod.mk.injEq] at h
    exact h.2.1.symm
  · rw [if_neg hc] at h
    cases hga : gameActionRun J σ g name action with
    | none => rw [hga] at h; exact absurd h (by simp)
    | some r =>
      rw [hga] at h
      simp only [Option.map_some', Option.some_inj, Prod.mk.injEq] at h
      exact h.2.1.symm

theorem forcedStand_not_mem (g : GameState) (name : String) :
    name ∉ (forcedStand g name).active_players := by
  unfold forcedStand
  cases hs : stand g name with
  | none => simp [Finset.not_mem_erase]
  | some p =>
    rcases p with ⟨m, g3⟩
    obtain ⟨_, _, hcase⟩ := stand_effect g name m g3 hs
    rcases hcase with ⟨hni, he⟩ | ⟨hac, he⟩
    · rw [he]
      exact hni
    · simp [he, Finset.not_mem_erase]

/-- C7: the guard increments the caller's per-name counter on every
completed `submit`, whatever the action text; on any call whose
incremented count exceeds the configured maximum it skips normalization
entirely (the result does not depend on the action text), removes the
participant from the active set through `stand` with the direct-removal
fallback, and returns the forced-stand message, which carries the
`**TASK COMPLETE.**` marker.  Consequently with maximum 3 and a fresh
counter, whatever the first three submitted actions did, the fourth call
is forced and the participant is absent from the active set
afterwards — in particular after four valid non-busting `hit`s. -/
theorem safeGuard_correct (J : String → Option String)
    (σ : List Card → List Card) (gs : GuardState) (g : GameState)
    (name action : String) :
    (∀ msg gs2 g2,
      safeGameActionRun J σ gs g name action = some (msg, gs2, g2) →
      gs2 = { gs with counts := bumpCount gs.counts name } ∧
      getCount gs2.counts name = getCount gs.counts name + 1) ∧
    (gs.max_actions < getCount gs.counts name + 1 →
      safeGameActionRun J σ gs g name action =
        some (forceMsg gs.max_actions,
          { gs with counts := bumpCount gs.counts name },
          forcedStand g name) ∧
      name ∉ (forcedStand g name).active_players ∧
      markerSuffix (forceMsg gs.max_actions) ∧
      (∀ action2, safeGameActionRun J σ gs g name action2 =
        safeGameActionRun J σ gs g name action)) ∧
    (gs.max_actions = 3 → getCount gs.counts name = 0 →
      ∀ a1 a2 a3 a4 m1 m2 m3 gs1 g1 gs2 g2 gs3 g3,
        safeGameActionRun J σ gs g name a1 = some (m1, gs1, g1) →
        safeGameActionRun J σ gs1 g1 name a2 = some (m2, gs2, g2) →
        safeGameActionRun J σ gs2 g2 name a3 = some (m3, gs3, g3) →
        safeGameActionRun J σ gs3 g3 name a4 =
          some (forceMsg 3,
            { gs3 with counts := bumpCount gs3.counts name },
            forcedStand g3 name) ∧
        name ∉ (forcedStand g3 name).active_players) := by
  refine ⟨?_, ?_, ?_⟩
  · intro msg gs2 g2 h
    have hgs := safeRun_guardState J σ gs g name action msg gs2 g2 h
    refine ⟨hgs, ?_⟩
    rw [hgs]
    exact getCount_bumpCount gs.counts name
  · intro hover
    have hcond : getCount (bumpCount gs.counts name) name > gs.max_actions := by
      rw [getCount_bumpCount]
      omega
    refine ⟨?_, forcedStand_not_mem g name, forceMsg_marker _, ?_⟩
    · simp only [safeGameActionRun]
      rw [if_pos hcond]
    · intro action2
      simp only [safeGameActionRun]
      rw [if_pos hcond, if_pos hcond]
  · intro hmax h0 a1 a2 a3 a4 m1 m2 m3 gs1 g1 gs2 g2 gs3 g3 h1 h2 h3
    have e1 := safeRun_guardState J σ gs g name a1 m1 gs1 g1 h1
    have e2 := safeRun_guardState J σ gs1 g1 name a2 m2 gs2 g2 h2
    have e3 := safeRun_guardState J σ gs2 g2 name a3 m3 gs3 g3 h3
    have c1 : getCount gs1.counts name = 1 := by
      rw [e1]
      simp only
      rw [getCount_bumpCount, h0]
    have c2 : getCount gs2.counts name = 2 := by
      rw [e2]
      simp only
      rw [getCount_bumpCount, c1]
    have c3 : getCount gs3.counts name = 3 := by
      rw [e3]
      simp only
      rw [getCount_bumpCount, c2]
    have m1max : gs1.max_actions = 3 := by rw [e1]; exact hmax
    have m2max : gs2.max_actions = 3 := by rw [e2]; exact m1max
    have m3max : gs3.max_actions = 3 := by rw [e3]; exact m2max
    have hcond4 : getCount (bumpCount gs3.counts name) name > gs3.max_actions := by
      rw [getCount_bumpCount, c3, m3max]
      omega
    refine ⟨?_, forcedStand_not_mem g3 name⟩
    simp only [safeGameActionRun]
    rw [if_pos hcond4, m3max]

/-- A JSON extraction that never succeeds (plain-word actions only). -/
def noJson : String → Option String := fun _ => none

/-- The two of spades, drawn three times in the witness run. -/
def twoS : Card := Card.mk Rank.r2 Suit.spades

/-- Witness game: one active player, an in-progress round, three low
cards in the shoe. -/
def guardG0 : GameState :=
  { deck := [twoS, twoS, twoS], hands := [("P1", []), ("Dealer", [])],
    player_names := ["P1"], active_players := {"P1"},
    game_status := "IN_PROGRESS" }

/-- Witness game after one `hit`. -/
def guardG1 : GameState :=
  { deck := [twoS, twoS], hands := [("P1", [twoS]), ("Dealer", [])],
    player_names := ["P1"], active_players := {"P1"},
    game_status := "IN_PROGRESS" }

/-- Witness game after two `hit`s. -/
def guardG2 : GameState :=
  { deck := [twoS], hands := [("P1", [twoS, twoS]), ("Dealer", [])],
    player_names := ["P1"], active_players := {"P1"},
    game_status := "IN_PROGRESS" }

/-- Witness game after three `hit`s. -/
def guardG3 : GameState :=
  { deck := [], hands := [("P1", [twoS, twoS, twoS]), ("Dealer", [])],
    player_names := ["P1"], active_players := {"P1"},
    game_status := "IN_PROGRESS" }

/-- Witness for C7: with maximum 3 and three valid non-busting `hit`s
already taken (scores 2, 4, 6), the fourth call is forced and P1 leaves
the active set. -/
theorem safeGuard_correct_witness :
    safeGameActionRun noJson id { counts := [("P1", 3)], max_actions := 3 }
        guardG3 "P1" "hit" =
      some (forceMsg 3,
        { ({ counts := [("P1", 3)], max_actions := 3 } : GuardState) with
          counts := bumpCount [("P1", 3)] "P1" },
        forcedStand guardG3 "P1") ∧
    "P1" ∉ (forcedStand guardG3 "P1").active_players :=
  (safeGuard_correct noJson id { counts := [], max_actions := 3 }
      guardG0 "P1" "hit").2.2 rfl rfl
    "hit" "hit" "hit" "hit"
    (continueMsg "P1" twoS 2) (continueMsg "P1" twoS 4) (continueMsg "P1" twoS 6)
    { counts := [("P1", 1)], max_actions := 3 } guardG1
    { counts := [("P1", 2)], max_actions := 3 } guardG2
    { counts := [("P1", 3)], max_actions := 3 } guardG3
    (by decide) (by decide) (by decide)

end BlackjackAI
